import Mathlib

/-!
Verification of the Pulumi deployment core of `sveltekit-adapter-aws`.

The pure data transforms of `src/pulumi/resources.ts` and `src/pulumi/index.ts`
are shallowly embedded here.  JavaScript strings are modelled as `List Char`
(so that the JS `String.prototype.split` / `Array.prototype.join` pair is the
`List.splitOn` / `List.intercalate` pair) where structural string reasoning is
needed, and as Lean `String` where values are only compared for equality.
Fallible code returns `Except`; the filesystem consumed by the directory
crawler is modelled explicitly as a finite node graph with files, directories
and symbolic links.
-/

deriving instance DecidableEq for Except

namespace SvelteKitAdapterAws

/-- JavaScript strings, modelled as lists of characters. -/
abbrev Str := List Char

/-- Coerce a Lean string literal to the `List Char` model. -/
def str (s : String) : Str := s.data

/-! ## Domain splitting (`getDomainAndSubdomain`, src/pulumi/resources.ts:353-369) -/

/-- Error taxonomy of the spec (section 7) for domain handling.
`InvalidDomainError` is the `No TLD found on ...` throw of
`getDomainAndSubdomain`; `DomainMismatchError` is the validation failure the
spec prescribes for an FQDN that is not under the target zone. -/
inductive DomainError where
  | InvalidDomainError
  | DomainMismatchError
deriving DecidableEq, Repr

/-- Result record of `getDomainAndSubdomain`. -/
structure DomainParts where
  subdomain : Str
  parentDomain : Str
deriving DecidableEq, Repr

/-- Embedding of `getDomainAndSubdomain` (src/pulumi/resources.ts:353-369):
split on `'.'`; fewer than two labels throws (`No TLD found`); exactly two
labels returns the input unchanged with an empty subdomain; otherwise the
first label is the subdomain and the remaining labels are re-joined with `'.'`
and a trailing `'.'` is appended. -/
def getDomainAndSubdomain (domain : Str) : Except DomainError DomainParts :=
  let parts := domain.splitOn '.'
  if parts.length < 2 then .error .InvalidDomainError
  else if parts.length = 2 then .ok ⟨[], domain⟩
  else .ok ⟨parts.headI, List.intercalate ['.'] parts.tail ++ ['.']⟩

/-! ## Zone-name derivation and certificate validation
(src/pulumi/index.ts:16-17, src/pulumi/resources.ts:93-128) -/

/-- Embedding of src/pulumi/index.ts:16-17:
`const [_, zoneName, ...MLDs] = process.env.FQDN?.split('.') || [];`
`const domainName = [zoneName, ...MLDs].join('.');`
i.e. the FQDN minus its first label, re-joined with `'.'`. -/
def domainNameFromFQDN (FQDN : Str) : Str :=
  List.intercalate ['.'] (FQDN.splitOn '.').tail

/-- The resources declared by `validateCertificate`: an ACM certificate for the
FQDN, a Route53 zone lookup by zone name, a DNS validation record (whose zone
id comes from that lookup) and the certificate-validation waiter. -/
structure CertGraph where
  certificateDomainName : Str
  zoneLookupName : Str
  validationRecordName : Str
deriving DecidableEq, Repr

/-- Embedding of `validateCertificate` (src/pulumi/resources.ts:93-128).  The
source declares the certificate, looks the hosted zone up by `domainName`
verbatim, declares the validation record named FQDN + ".validation" and
the certificate validation, and returns; it contains no comparison between
`FQDN` and `domainName`, so no `DomainMismatchError` (nor any other error) is
ever raised. -/
def validateCertificate (FQDN domainName : Str) : Except DomainError CertGraph :=
  .ok { certificateDomainName := FQDN
        zoneLookupName := domainName
        validationRecordName := FQDN ++ str ".validation" }

/-! ## Theorems about the domain splitter -/

/-- Unfolding step for `List.intercalate` on a list with at least two chunks. -/
theorem intercalate_cons_cons' {α : Type} (sep a b : List α) (t : List (List α)) :
    List.intercalate sep (a :: b :: t) = a ++ sep ++ List.intercalate sep (b :: t) := by
  simp [List.intercalate, List.intersperse_cons_cons, List.append_assoc]

/-- Rejoining all labels of `domain` with `'.'` gives back `domain`. -/
theorem intercalate_splitOn_dot (domain : Str) :
    List.intercalate ['.'] (domain.splitOn '.') = domain :=
  List.intercalate_splitOn domain '.'

/-- C3: the domain splitter, case by case: fewer than two dot-separated labels
fails with `InvalidDomainError`; exactly two labels returns an empty subdomain
and the input unchanged; more than two labels returns the first label as
subdomain and the remaining labels re-joined with `'.'` plus a trailing `'.'`
as parent domain. -/
theorem getDomainAndSubdomain_cases (domain : Str) :
    ((domain.splitOn '.').length < 2 →
      getDomainAndSubdomain domain = .error .InvalidDomainError) ∧
    ((domain.splitOn '.').length = 2 →
      getDomainAndSubdomain domain = .ok ⟨[], domain⟩) ∧
    (2 < (domain.splitOn '.').length →
      getDomainAndSubdomain domain =
        .ok ⟨(domain.splitOn '.').headI,
          List.intercalate ['.'] (domain.splitOn '.').tail ++ ['.']⟩) := by
  refine ⟨fun h => ?_, fun h => ?_, fun h => ?_⟩
  · simp [getDomainAndSubdomain, h]
  · simp [getDomainAndSubdomain, h]
  · have h1 : ¬ (domain.splitOn '.').length < 2 := by omega
    have h2 : ¬ (domain.splitOn '.').length = 2 := by omega
    simp [getDomainAndSubdomain, h1, h2]

/-- Witness for `getDomainAndSubdomain_cases` at the spec's three examples. -/
theorem getDomainAndSubdomain_cases_witness :
    getDomainAndSubdomain (str "a") = .error .InvalidDomainError ∧
    getDomainAndSubdomain (str "example.com") = .ok ⟨[], str "example.com"⟩ ∧
    getDomainAndSubdomain (str "www.example.co.uk") =
      .ok ⟨str "www", str "example.co.uk."⟩ :=
  ⟨(getDomainAndSubdomain_cases (str "a")).1 (by decide),
   (getDomainAndSubdomain_cases (str "example.com")).2.1 (by decide),
   ((getDomainAndSubdomain_cases (str "www.example.co.uk")).2.2 (by decide)).trans
     (by decide)⟩

/-- C7: rejoining the splitter's output reconstructs the input: either the
subdomain is empty and the parent domain is the input itself (two-label case),
or subdomain ++ "." ++ parentDomain-without-its-trailing-dot is the input. -/
theorem getDomainAndSubdomain_roundtrip (domain : Str) (p : DomainParts)
    (h : getDomainAndSubdomain domain = .ok p) :
    (p.subdomain = [] ∧ p.parentDomain = domain) ∨
      p.subdomain ++ '.' :: p.parentDomain.dropLast = domain := by
  rcases lt_trichotomy (domain.splitOn '.').length 2 with hlt | heq | hgt
  · rw [(getDomainAndSubdomain_cases domain).1 hlt] at h
    cases h
  · rw [(getDomainAndSubdomain_cases domain).2.1 heq] at h
    cases h
    exact .inl ⟨rfl, rfl⟩
  · rw [(getDomainAndSubdomain_cases domain).2.2 hgt] at h
    cases h
    right
    have hlen : 3 ≤ (domain.splitOn '.').length := by omega
    obtain ⟨a, b, t, habt⟩ : ∃ a b t, domain.splitOn '.' = a :: b :: t := by
      match hsp : domain.splitOn '.' with
      | [] => rw [hsp] at hlen; simp at hlen
      | [x] => rw [hsp] at hlen; simp at hlen
      | x :: y :: u => exact ⟨x, y, u, rfl⟩
    have hjoin := intercalate_splitOn_dot domain
    rw [habt, intercalate_cons_cons'] at hjoin
    simp only [habt, List.headI, List.tail_cons, List.dropLast_concat]
    simpa [List.append_assoc] using hjoin

/-- Witness for `getDomainAndSubdomain_roundtrip` at "www.example.co.uk". -/
theorem getDomainAndSubdomain_roundtrip_witness :
    (str "www" = ([] : Str) ∧ str "example.co.uk." = str "www.example.co.uk") ∨
      str "www" ++ '.' :: (str "example.co.uk.").dropLast = str "www.example.co.uk" :=
  getDomainAndSubdomain_roundtrip (str "www.example.co.uk")
    ⟨str "www", str "example.co.uk."⟩ (by decide)

/-! ## Theorems about certificate validation and the zone lookup -/

/-- C1 (code bug): `validateCertificate` performs no comparison between the
FQDN and the zone name.  At the failing input of the repository's own test
`validateCertificate-Wrong-Domain` (FQDN "server.example.com", zone
"another.com", which expects a `FQDN must contain domainName` throw) the
source instead succeeds, declaring the certificate and looking up the
mismatched zone verbatim — it never raises `DomainMismatchError`. -/
theorem validateCertificate_missing_mismatch_check :
    validateCertificate (str "server.example.com") (str "another.com") =
      .ok { certificateDomainName := str "server.example.com"
            zoneLookupName := str "another.com"
            validationRecordName := str "server.example.com.validation" } := by
  decide

/-- C8 counterexample: for FQDN "server.example.com" the zone name computed by
src/pulumi/index.ts:16-17 and handed to the certificate's zone lookup is
"example.com" — without the trailing dot the claim requires. -/
theorem certificate_zone_lookup_not_canonical :
    (validateCertificate (str "server.example.com")
        (domainNameFromFQDN (str "server.example.com"))).toOption.map
        CertGraph.zoneLookupName = some (str "example.com") ∧
      str "example.com" ≠ str "example.com." := by
  decide

/-- C8 amended: given FQDN "server.example.com" and zone "example.com", graph
construction succeeds and the certificate's DNS zone lookup targets
"example.com", with no trailing dot. -/
theorem validateCertificate_zone_lookup :
    validateCertificate (str "server.example.com")
        (domainNameFromFQDN (str "server.example.com")) =
      .ok { certificateDomainName := str "server.example.com"
            zoneLookupName := str "example.com"
            validationRecordName := str "server.example.com.validation" } := by
  decide

/-! ## The CDN distribution (`buildCDN`, `buildBehavior`,
src/pulumi/resources.ts:178-346) -/

/-- One ordered cache behavior of the distribution.  Policy references are
recorded by the name they are resolved from (`aws.cloudfront.getCachePolicyOutput`
looks managed cache policies up by name; the origin-request policy is the
logical name of the declared `OriginRequestPolicy` resource). -/
structure CacheBehavior where
  pathPattern : String
  allowedMethods : List String
  cachedMethods : List String
  targetOriginId : String
  originRequestPolicy : String
  cachePolicyName : String
  viewerProtocolPolicy : String
deriving DecidableEq, Repr

/-- The catch-all default cache behavior of the distribution. -/
structure DefaultCacheBehavior where
  compress : Bool
  viewerProtocolPolicy : String
  allowedMethods : List String
  cachedMethods : List String
  originRequestPolicy : String
  cachePolicyName : String
  targetOriginId : String
deriving DecidableEq, Repr

/-- The viewer certificate: either the ACM certificate (custom FQDN) or the
default CloudFront certificate. -/
inductive ViewerCertificate where
  | acm (certificateArn : String)
  | cloudfrontDefault
deriving DecidableEq, Repr

/-- The fields of the CloudFront distribution constructed by `buildCDN` that
carry routing and caching structure.  Provider-opaque configuration (geo
restrictions, price class, origin TLS settings, the bucket policy) is not
needed by any claim and is omitted. -/
structure Distribution where
  originIds : List String
  aliases : Option (List String)
  viewerCertificate : ViewerCertificate
  defaultCacheBehavior : DefaultCacheBehavior
  orderedCacheBehaviors : List CacheBehavior
deriving DecidableEq, Repr

/-- Embedding of `buildBehavior` (src/pulumi/resources.ts:319-346): one
ordered cache behavior per route pattern, targeting the s3 (static) origin
with the managed `CachingOptimized` policy. -/
def buildBehavior (route : String) : CacheBehavior :=
  { pathPattern := route
    allowedMethods := ["GET", "HEAD", "OPTIONS"]
    cachedMethods := ["GET", "HEAD", "OPTIONS"]
    targetOriginId := "s3Origin"
    originRequestPolicy := "RouteRequestPolicy"
    cachePolicyName := "Managed-CachingOptimized"
    viewerProtocolPolicy := "redirect-to-https" }

/-- Embedding of `buildCDN` (src/pulumi/resources.ts:178-317): two origins
(HTTP API and bucket), a default behavior to the dynamic origin with the
managed `CachingDisabled` policy, and `routes.map(buildBehavior)` as the
ordered behaviors.  `fqdn` models `process.env.FQDN` (set or unset). -/
def buildCDN (fqdn : Option String) (certificateArn : String)
    (routes : List String) : Distribution :=
  { originIds := ["httpOrigin", "s3Origin"]
    aliases := fqdn.map (fun d => [d])
    viewerCertificate :=
      match fqdn with
      | some _ => .acm certificateArn
      | none => .cloudfrontDefault
    defaultCacheBehavior :=
      { compress := true
        viewerProtocolPolicy := "redirect-to-https"
        allowedMethods := ["DELETE", "GET", "HEAD", "OPTIONS", "PATCH", "POST", "PUT"]
        cachedMethods := ["GET", "HEAD"]
        originRequestPolicy := "DefaultRequestPolicy"
        cachePolicyName := "Managed-CachingDisabled"
        targetOriginId := "httpOrigin" }
    orderedCacheBehaviors := routes.map buildBehavior }

/-- C4: building the CDN with N route patterns yields exactly N ordered cache
behaviors, one per pattern in the given order, each targeting the static (s3)
origin, plus the default catch-all behavior targeting the dynamic (HTTP API)
origin with the caching-disabled managed policy. -/
theorem buildCDN_behaviors (fqdn : Option String) (certificateArn : String)
    (routes : List String) :
    (buildCDN fqdn certificateArn routes).orderedCacheBehaviors.length
        = routes.length ∧
    (buildCDN fqdn certificateArn routes).orderedCacheBehaviors.map
        CacheBehavior.pathPattern = routes ∧
    (∀ b ∈ (buildCDN fqdn certificateArn routes).orderedCacheBehaviors,
        b.targetOriginId = "s3Origin") ∧
    (buildCDN fqdn certificateArn routes).defaultCacheBehavior.targetOriginId
        = "httpOrigin" ∧
    (buildCDN fqdn certificateArn routes).defaultCacheBehavior.cachePolicyName
        = "Managed-CachingDisabled" ∧
    (buildCDN fqdn certificateArn routes).originIds = ["httpOrigin", "s3Origin"] := by
  refine ⟨by simp [buildCDN], ?_, ?_, rfl, rfl, rfl⟩
  · simp [buildCDN, List.map_map]
    exact List.map_id routes
  · intro b hb
    simp [buildCDN, List.mem_map] at hb
    obtain ⟨r, _, hr⟩ := hb
    rw [← hr]
    rfl

/-- Witness for `buildCDN_behaviors` at the spec's routePatterns
["api/*", "assets/*"]. -/
theorem buildCDN_behaviors_witness :
    (buildCDN none "" ["api/*", "assets/*"]).orderedCacheBehaviors.length
        = (["api/*", "assets/*"] : List String).length ∧
    (buildCDN none "" ["api/*", "assets/*"]).orderedCacheBehaviors.map
        CacheBehavior.pathPattern = ["api/*", "assets/*"] ∧
    (∀ b ∈ (buildCDN none "" ["api/*", "assets/*"]).orderedCacheBehaviors,
        b.targetOriginId = "s3Origin") ∧
    (buildCDN none "" ["api/*", "assets/*"]).defaultCacheBehavior.targetOriginId
        = "httpOrigin" ∧
    (buildCDN none "" ["api/*", "assets/*"]).defaultCacheBehavior.cachePolicyName
        = "Managed-CachingDisabled" ∧
    (buildCDN none "" ["api/*", "assets/*"]).originIds = ["httpOrigin", "s3Origin"] :=
  buildCDN_behaviors none "" ["api/*", "assets/*"]

/-! ## Content fingerprinting and cache invalidation
(`buildInvalidator`, src/pulumi/resources.ts:465-535)

`hashElement` (the external `folder-hash` library) computes a fingerprint of
the directory tree at a path; within one run it is a fixed function from
paths to hash strings, so it is passed as a parameter.  Two runs over an
unmodified tree see the same function value at that path. -/

/-- Inputs of the dynamic `PathHash` resource. -/
structure PathHashInputs where
  path : String
deriving DecidableEq, Repr

/-- Outputs of the dynamic `PathHash` resource. -/
structure PathHashOutputs where
  hash : String
deriving DecidableEq, Repr

/-- The diff result returned by the dynamic provider. -/
structure DiffResult where
  deleteBeforeReplace : Bool
  replaces : List String
  changes : Bool
deriving DecidableEq, Repr

/-- Result of the provider's `create`. -/
structure CreateResult where
  id : String
  outs : PathHashOutputs
deriving DecidableEq, Repr

/-- Embedding of `pathHashProvider.create` (src/pulumi/resources.ts:483-486):
hash the tree and return it as the resource's output. -/
def pathHashCreate (hashElement : String → String)
    (inputs : PathHashInputs) : CreateResult :=
  { id := inputs.path, outs := { hash := hashElement inputs.path } }

/-- Embedding of `pathHashProvider.diff` (src/pulumi/resources.ts:487-503):
`changes` starts `true` and is set to `false` exactly when the stored hash
equals the freshly computed one. -/
def pathHashDiff (hashElement : String → String) (id : String)
    (previousOutput : PathHashOutputs) (news : PathHashInputs) : DiffResult :=
  { deleteBeforeReplace := false
    replaces := []
    changes := if previousOutput.hash = hashElement news.path then false else true }

/-- Embedding of `pathHashProvider.update` (src/pulumi/resources.ts:504-507). -/
def pathHashUpdate (hashElement : String → String) (id : String)
    (olds news : PathHashInputs) : PathHashOutputs :=
  { hash := hashElement news.path }

/-- One engine step for a `PathHash` resource, following the documented
dynamic-provider lifecycle of the orchestration engine: with no prior stored
output the engine invokes `create` (a change); with a stored output it invokes
`diff` and, when `diff` reports changes, `update`.  Returns the resource's new
stored output and whether the step counts as a change (which is what the
invalidation command's `triggers` react to). -/
def pathHashStep (hashElement : String → String)
    (prior : Option PathHashOutputs) (inputs : PathHashInputs) :
    PathHashOutputs × Bool :=
  match prior with
  | none => ((pathHashCreate hashElement inputs).outs, true)
  | some prev =>
    let d := pathHashDiff hashElement inputs.path prev inputs
    if d.changes then (pathHashUpdate hashElement inputs.path inputs inputs, true)
    else (prev, false)

/-- C2: the invalidation decision per asset root.  `diff` returns
`changes = false` exactly when the stored hash equals the recomputed one; a
step with no stored predecessor (first run) always registers a change via
`create`; a step with a stored predecessor registers no change exactly when
the stored hash equals the recomputed hash. -/
theorem pathHash_invalidation_decision (hashElement : String → String)
    (id : String) (prev : PathHashOutputs) (news : PathHashInputs)
    (inputs : PathHashInputs) :
    ((pathHashDiff hashElement id prev news).changes = false ↔
        prev.hash = hashElement news.path) ∧
    (pathHashStep hashElement none inputs).2 = true ∧
    ((pathHashStep hashElement (some prev) inputs).2 = false ↔
        prev.hash = hashElement inputs.path) := by
  refine ⟨?_, rfl, ?_⟩
  · simp only [pathHashDiff]
    by_cases h : prev.hash = hashElement news.path <;> simp [h]
  · simp only [pathHashStep, pathHashDiff]
    by_cases h : prev.hash = hashElement inputs.path <;> simp [h]

/-- Witness for `pathHash_invalidation_decision` at a concrete hash function
and stored output. -/
theorem pathHash_invalidation_decision_witness :
    ((pathHashDiff (fun _ => "h") "assets" ⟨"h"⟩ ⟨"assets"⟩).changes = false ↔
        PathHashOutputs.hash ⟨"h"⟩ = "h") ∧
    (pathHashStep (fun _ => "h") none ⟨"assets"⟩).2 = true ∧
    ((pathHashStep (fun _ => "h") (some ⟨"h"⟩) ⟨"assets"⟩).2 = false ↔
        PathHashOutputs.hash ⟨"h"⟩ = "h") :=
  pathHash_invalidation_decision (fun _ => "h") "assets" ⟨"h"⟩ ⟨"assets"⟩ ⟨"assets"⟩



/-- Whatever the prior stored output, a `PathHash` step leaves the freshly
computed hash as the resource's stored output. -/
theorem pathHashStep_fst (hashElement : String → String)
    (prior : Option PathHashOutputs) (inputs : PathHashInputs) :
    (pathHashStep hashElement prior inputs).1 = ⟨hashElement inputs.path⟩ := by
  match prior with
  | none => rfl
  | some prev =>
    simp only [pathHashStep, pathHashDiff]
    by_cases hc : prev.hash = hashElement inputs.path
    · cases prev
      cases hc
      simp
    · simp [hc, pathHashUpdate]

/-- A `PathHash` step whose stored output already equals the recomputed hash
reports no change. -/
theorem pathHashStep_some_self (hashElement : String → String) (path : String) :
    pathHashStep hashElement (some ⟨hashElement path⟩) ⟨path⟩
      = (⟨hashElement path⟩, false) := by
  simp [pathHashStep, pathHashDiff]

/-- The cross-run state the engine checkpoints for `buildInvalidator`: the
stored outputs of the two `PathHash` resources (the fingerprint store) and the
`Invalidate` command resource's own persisted state — the snapshot of its
`triggers` array, `none` while the command has never completed successfully.
A resource whose create failed is absent from the checkpoint, and a failed
replacement leaves the previous resource (with its old trigger snapshot) in
the checkpoint. -/
structure InvalidatorState where
  staticHash : Option PathHashOutputs
  prerenderedHash : Option PathHashOutputs
  commandTriggers : Option (List String)
deriving DecidableEq, Repr

/-- Outcome of one deployment run of the invalidator subgraph.
`invalidationIssued` records a successfully issued invalidation request. -/
structure InvalidatorRun where
  persisted : InvalidatorState
  invalidationIssued : Bool
  succeeded : Bool
deriving DecidableEq, Repr

/-- One deployment run of the subgraph declared by `buildInvalidator`
(src/pulumi/resources.ts:465-535), under the orchestration engine's documented
semantics: resources execute in dependency order and each resource's new state
is checkpointed when that resource completes.  The `Invalidate` command's
`triggers` reference the two `PathHash` outputs, so both hash resources
complete — and their new hashes are persisted — before the command is
considered.  The command then runs when its stored trigger snapshot differs
from the new trigger values (a create when it is absent, a replacement when it
is stale), and its snapshot is checkpointed only when that run succeeds
(`commandSucceeds`); a failing command aborts the run after the hash state was
already persisted, leaving the command's snapshot absent or stale. -/
def runInvalidator (hashElement : String → String) (state : InvalidatorState)
    (staticPath prerenderedPath : String) (commandSucceeds : Bool) :
    InvalidatorRun :=
  let s := pathHashStep hashElement state.staticHash ⟨staticPath⟩
  let p := pathHashStep hashElement state.prerenderedHash ⟨prerenderedPath⟩
  let triggers := [s.1.hash, p.1.hash]
  let mustRun := if state.commandTriggers = some triggers then false else true
  { persisted :=
      { staticHash := some s.1
        prerenderedHash := some p.1
        commandTriggers :=
          if mustRun && commandSucceeds then some triggers
          else state.commandTriggers }
    invalidationIssued := mustRun && commandSucceeds
    succeeded := !mustRun || commandSucceeds }

/-- C9 counterexample: a concrete first run whose invalidation command fails.
The run does not successfully issue the invalidation, yet the persisted
fingerprint store has already changed from its prior value — the store is
updated before the invalidation request succeeds, contradicting the claim. -/
theorem runInvalidator_store_updated_despite_failure :
    (runInvalidator (fun _ => "h1") ⟨none, none, none⟩ "static" "prerendered"
        false).succeeded = false ∧
    (runInvalidator (fun _ => "h1") ⟨none, none, none⟩ "static" "prerendered"
        false).invalidationIssued = false ∧
    (runInvalidator (fun _ => "h1") ⟨none, none, none⟩ "static" "prerendered"
        false).persisted ≠ (⟨none, none, none⟩ : InvalidatorState) := by
  refine ⟨rfl, rfl, ?_⟩
  decide

/-- C9 amended: the fingerprint store (the checkpointed `PathHash` outputs) is
updated when the hash resources complete, before the invalidation command is
considered: every run — including one whose invalidation command fails —
persists the freshly computed fingerprints.  The invalidation is nevertheless
not lost: the command's own persisted trigger snapshot changes exactly when an
invalidation was successfully issued, so after a failed run the snapshot is
still absent or stale and a retry runs the invalidation command again. -/
theorem runInvalidator_store_update_order (hashElement : String → String)
    (state : InvalidatorState) (staticPath prerenderedPath : String)
    (ok : Bool) :
    (runInvalidator hashElement state staticPath prerenderedPath
        ok).persisted.staticHash = some ⟨hashElement staticPath⟩ ∧
    (runInvalidator hashElement state staticPath prerenderedPath
        ok).persisted.prerenderedHash = some ⟨hashElement prerenderedPath⟩ ∧
    ((runInvalidator hashElement state staticPath prerenderedPath
        ok).persisted.commandTriggers ≠ state.commandTriggers ↔
      (runInvalidator hashElement state staticPath prerenderedPath
        ok).invalidationIssued = true) ∧
    ((runInvalidator hashElement state staticPath prerenderedPath
        false).succeeded = false →
      (runInvalidator hashElement
        (runInvalidator hashElement state staticPath prerenderedPath
          false).persisted staticPath prerenderedPath
        true).invalidationIssued = true) := by
  refine ⟨?_, ?_, ?_, ?_⟩
  · simp [runInvalidator, pathHashStep_fst]
  · simp [runInvalidator, pathHashStep_fst]
  · simp only [runInvalidator, pathHashStep_fst]
    by_cases hc : state.commandTriggers
        = some [hashElement staticPath, hashElement prerenderedPath]
    · simp [hc]
    · by_cases hok : ok
      · simp [hc, hok]
        exact fun hcc => hc hcc.symm
      · simp [hc, hok]
  · intro hfail
    simp only [runInvalidator, pathHashStep_fst] at hfail ⊢
    by_cases hc : state.commandTriggers
        = some [hashElement staticPath, hashElement prerenderedPath]
    · simp [hc] at hfail
    · simp [hc]

/-- Witness for `runInvalidator_store_update_order`: a failed first run
persists the fingerprints, its command snapshot changes only with a successful
issue, and the retry re-issues the invalidation. -/
theorem runInvalidator_store_update_order_witness :
    (runInvalidator (fun _ => "h1") ⟨none, none, none⟩ "static" "prerendered"
        false).persisted.staticHash = some ⟨"h1"⟩ ∧
    (runInvalidator (fun _ => "h1") ⟨none, none, none⟩ "static" "prerendered"
        false).persisted.prerenderedHash = some ⟨"h1"⟩ ∧
    ((runInvalidator (fun _ => "h1") ⟨none, none, none⟩ "static" "prerendered"
        false).persisted.commandTriggers
        ≠ (⟨none, none, none⟩ : InvalidatorState).commandTriggers ↔
      (runInvalidator (fun _ => "h1") ⟨none, none, none⟩ "static" "prerendered"
        false).invalidationIssued = true) ∧
    ((runInvalidator (fun _ => "h1") ⟨none, none, none⟩ "static" "prerendered"
        false).succeeded = false →
      (runInvalidator (fun _ => "h1")
        (runInvalidator (fun _ => "h1") ⟨none, none, none⟩ "static" "prerendered"
          false).persisted "static" "prerendered"
        true).invalidationIssued = true) :=
  runInvalidator_store_update_order (fun _ => "h1") ⟨none, none, none⟩
    "static" "prerendered" false

/-! ## The filesystem model and the directory crawler
(`uploadStatic` / `crawlDirectory` / `buildStatic`,
src/pulumi/resources.ts:130-176)

The filesystem consumed through Node's `fs` API is modelled as a finite graph
of numbered nodes: regular files, directories with named entries, and
symbolic links.  The crawler only ever handles path strings (it builds the
child path as dir + '/' + name and hands it to `fs.statSync` and
`fs.readdirSync`), so the model resolves every such path from the crawl root,
component by component.  `statSync` follows symbolic links wherever they occur
in the path (it is `lstat` that does not), with a single per-lookup budget of
`statFuel` symlink traversals shared across the whole resolution — the
kernel's MAXSYMLINKS — beyond which the call fails with `ELOOP`. -/

/-- A filesystem node: a regular file, a directory with named entries
(name and target node id, in listing order), or a symbolic link to another
node (the resolution of the link's target path). -/
inductive FSNode where
  | file
  | dir (entries : List (Str × Nat))
  | symlink (target : Nat)
deriving DecidableEq, Repr

/-- The ids of a directory node's children (empty for other nodes). -/
def FSNode.childIds : FSNode → List Nat
  | .dir entries => entries.map (fun e => e.2)
  | _ => []

/-- A filesystem: a finite association of node ids to nodes. -/
structure FileSystem where
  nodes : List (Nat × FSNode)
deriving DecidableEq, Repr

/-- Raw lookup of a node by id (no symlink resolution). -/
def FileSystem.lookup (fs : FileSystem) (n : Nat) : Option FSNode :=
  (fs.nodes.find? (fun e => e.1 == n)).map (fun e => e.2)

/-- The largest node id (0 on an empty filesystem). -/
def FileSystem.maxId (fs : FileSystem) : Nat :=
  fs.nodes.foldr (fun p m => max p.1 m) 0

/-- The kernel's MAXSYMLINKS: one path lookup follows at most this many
symbolic links in total before failing with `ELOOP`. -/
def statFuel : Nat := 40

/-- Follow a chain of symbolic links to a non-link node, spending one unit of
the lookup's symlink `budget` per link.  Returns the resolved node's id, the
node, and the remaining budget; `none` is a thrown error (missing node or
`ELOOP`). -/
def followLinks (fs : FileSystem) : Nat → Nat → Option (Nat × FSNode × Nat)
  | 0, n =>
    match fs.lookup n with
    | some (.symlink _) => none
    | some node => some (n, node, 0)
    | none => none
  | b + 1, n =>
    match fs.lookup n with
    | some (.symlink t) => followLinks fs b t
    | some node => some (n, node, b + 1)
    | none => none

/-- Resolve a relative path (a list of entry names) starting at node `n`,
following symbolic links at every component, all hops drawing on the one
shared `budget` of the lookup. -/
def resolveFrom (fs : FileSystem) : Nat → Nat → List Str → Option (Nat × FSNode × Nat)
  | budget, n, [] => followLinks fs budget n
  | budget, n, c :: rest =>
    match followLinks fs budget n with
    | some (_, .dir entries, b) =>
      match entries.find? (fun e => e.1 == c) with
      | some e => resolveFrom fs b e.2 rest
      | none => none
    | _ => none

/-- One `fs.statSync`/`fs.readdirSync` path lookup: resolve the path (given as
entry names relative to the crawl root `rootId`) with a fresh MAXSYMLINKS
budget, as the kernel grants per lookup. -/
def FileSystem.statPath (fs : FileSystem) (rootId : Nat) (rel : List Str) :
    Option FSNode :=
  (resolveFrom fs statFuel rootId rel).map (fun r => r.2.1)

/-- Outcome of a crawl: the file paths passed to the callback in order, a
propagated filesystem error (the source lets `readdirSync`/`statSync` throws
such as `ELOOP` escape), or exhaustion of the recursion bound `fuel`.  The
source recursion has no such bound, so an outcome of `diverged` at every
`fuel` models a crawl that never returns. -/
inductive CrawlResult where
  | files (paths : List Str)
  | error
  | diverged
deriving DecidableEq, Repr

/-- Sequencing of crawl outcomes: errors and divergence propagate. -/
def CrawlResult.seq (r : CrawlResult) (f : List Str → CrawlResult) : CrawlResult :=
  match r with
  | .files xs => f xs
  | .error => .error
  | .diverged => .diverged

/-- The `for (const file of files)` loop body of `crawlDirectory`
(src/pulumi/resources.ts:148-157): build the child path as dir + '/' + name,
stat it (resolving the full path, symlinks included), recurse into
directories (via `recurse`, the crawl at the remaining recursion bound) and
emit regular files to the callback. -/
def crawlEntries (fs : FileSystem) (rootId : Nat)
    (recurse : List Str → Str → CrawlResult) (rel : List Str) :
    List (Str × Nat) → Str → CrawlResult
  | [], _ => .files []
  | (name, _) :: rest, dirPath =>
    let filePath := dirPath ++ '/' :: name
    match fs.statPath rootId (rel ++ [name]) with
    | some (.dir _) =>
      (recurse (rel ++ [name]) filePath).seq fun sub =>
        (crawlEntries fs rootId recurse rel rest dirPath).seq fun more =>
          .files (sub ++ more)
    | some .file =>
      (crawlEntries fs rootId recurse rel rest dirPath).seq fun more =>
        .files (filePath :: more)
    | _ => .error

/-- Embedding of `crawlDirectory` (src/pulumi/resources.ts:146-158):
`readdirSync` the directory path (resolving it, symlinks included, and
failing on anything that is not a directory) and walk its entries.  `rel` is
the crawled path as entry names relative to the crawl root, mirroring the
string path the source carries; `fuel` bounds the recursion depth, which the
source does not. -/
def crawlDirectory (fs : FileSystem) (rootId : Nat) : Nat → List Str → Str → CrawlResult
  | 0, _, _ => .diverged
  | fuel + 1, rel, dirPath =>
    match fs.statPath rootId rel with
    | some (.dir entries) =>
      crawlEntries fs rootId (fun rel2 p => crawlDirectory fs rootId fuel rel2 p)
        rel entries dirPath
    | _ => .error

/-- The crawl of the tree rooted at `rootId` terminates when some recursion
bound suffices for it to return — with either the file list or a thrown
filesystem error (such as `ELOOP`). -/
def crawlTerminates (fs : FileSystem) (rootId : Nat) (rootPath : Str) : Prop :=
  ∃ fuel, crawlDirectory fs rootId fuel [] rootPath ≠ .diverged

/-- Every directory entry points to a node with a smaller id.  A finite
filesystem always admits such a numbering (e.g. post-order): directories form
a tree on every real filesystem (no hard links to directories), while
symbolic links — including cycles through them — remain unconstrained, since
a link's target is not a directory entry. -/
def FileSystem.treeOrdered (fs : FileSystem) : Prop :=
  ∀ p ∈ fs.nodes, ∀ c ∈ p.2.childIds, c < p.1

instance (fs : FileSystem) : Decidable fs.treeOrdered :=
  List.decidableBAll _ fs.nodes

/-- JS `String.prototype.replace` with a string pattern: replace the first
occurrence of `pat` (scanning from the left) by `rep`. -/
def replaceFirst (pat rep : Str) : Str → Str
  | [] => if pat.isPrefixOf ([] : Str) then rep ++ List.drop pat.length [] else []
  | c :: cs =>
    if pat.isPrefixOf (c :: cs) then rep ++ List.drop pat.length (c :: cs)
    else c :: replaceFirst pat rep cs

/-- One `aws.s3.BucketObject` declared by `uploadStatic`'s callback: its key
(also its logical name) is filePath.replace(path + '/', ''), its bucket the
enclosing bucket, its source the crawled file. -/
structure UploadRecord where
  key : Str
  bucket : Str
  sourcePath : Str
deriving DecidableEq, Repr

/-- Embedding of `uploadStatic` (src/pulumi/resources.ts:142-176): crawl
`path` (the tree rooted at node `rootId`) and declare one bucket object per
discovered file; `none` when the crawl does not return a file list. -/
def uploadStatic (fs : FileSystem) (fuel rootId : Nat) (path bucket : Str) :
    Option (List UploadRecord) :=
  match crawlDirectory fs rootId fuel [] path with
  | .files fps =>
    some (fps.map fun filePath =>
      { key := replaceFirst (path ++ ['/']) [] filePath
        bucket := bucket
        sourcePath := filePath })
  | _ => none

/-- Embedding of `buildStatic` (src/pulumi/resources.ts:130-138): one bucket,
into which both the static root and the prerendered root are uploaded. -/
def buildStatic (fs : FileSystem) (fuel staticId prerenderedId : Nat)
    (staticPath prerenderedPath : Str) : Option (Str × List UploadRecord) :=
  let bucket := str "StaticContentBucket"
  match uploadStatic fs fuel staticId staticPath bucket,
      uploadStatic fs fuel prerenderedId prerenderedPath bucket with
  | some a, some b => some (bucket, a ++ b)
  | _, _ => none

/-! ## Theorems about the crawler and the upload planner -/

/-- A filesystem lookup hit is a member of the node list. -/
theorem lookup_mem (fs : FileSystem) (n : Nat) (node : FSNode)
    (h : fs.lookup n = some node) : (n, node) ∈ fs.nodes := by
  unfold FileSystem.lookup at h
  cases hf : fs.nodes.find? (fun e => e.1 == n) with
  | none => rw [hf] at h; cases h
  | some pr =>
    rw [hf] at h
    cases h
    have hmem := List.mem_of_find?_eq_some hf
    have hp : pr.1 = n := by simpa using List.find?_some hf
    rw [← hp]
    simpa using hmem

/-- A member's id is bounded by the folded maximum. -/
theorem le_foldr_max (l : List (Nat × FSNode)) (n : Nat) (node : FSNode)
    (h : (n, node) ∈ l) : n ≤ l.foldr (fun p m => max p.1 m) 0 := by
  induction l with
  | nil => cases h
  | cons p rest ih =>
    rcases List.mem_cons.mp h with h | h
    · rw [← h]
      exact le_max_left _ _
    · exact le_trans (ih h) (le_max_right _ _)

/-- Every id the lookup can hit is at most `maxId`. -/
theorem lookup_le_maxId (fs : FileSystem) {n : Nat} {node : FSNode}
    (h : fs.lookup n = some node) : n ≤ fs.maxId :=
  le_foldr_max fs.nodes n node (lookup_mem fs n node h)

/-- A successful link chase lands on a stored node without gaining budget. -/
theorem followLinks_spec (fs : FileSystem) :
    ∀ budget n id node b, followLinks fs budget n = some (id, node, b) →
      fs.lookup id = some node ∧ b ≤ budget := by
  intro budget
  induction budget with
  | zero =>
    intro n id node b h
    simp only [followLinks] at h
    cases hl : fs.lookup n <;> rw [hl] at h
    · cases h
    · rename_i nd
      cases nd with
      | file => cases h; exact ⟨hl, Nat.le_refl _⟩
      | dir es => cases h; exact ⟨hl, Nat.le_refl _⟩
      | symlink t => cases h
  | succ bb ih =>
    intro n id node b h
    simp only [followLinks] at h
    cases hl : fs.lookup n <;> rw [hl] at h
    · cases h
    · rename_i nd
      cases nd with
      | file => cases h; exact ⟨hl, Nat.le_refl _⟩
      | dir es => cases h; exact ⟨hl, Nat.le_refl _⟩
      | symlink t =>
        obtain ⟨h1, h2⟩ := ih t id node b h
        exact ⟨h1, Nat.le_succ_of_le h2⟩

/-- A link chase that starts on a symbolic link strictly spends budget. -/
theorem followLinks_symlink_lt (fs : FileSystem) {budget n t id b : Nat}
    {node : FSNode} (hl : fs.lookup n = some (.symlink t))
    (h : followLinks fs budget n = some (id, node, b)) : b < budget := by
  cases budget with
  | zero => simp [followLinks, hl] at h
  | succ bb =>
    simp only [followLinks, hl] at h
    have := (followLinks_spec fs bb t id node b h).2
    omega

/-- A link chase that starts on a non-link node is immediate. -/
theorem followLinks_not_link (fs : FileSystem) {n : Nat} {node : FSNode}
    (hl : fs.lookup n = some node) (hnl : ∀ t, node ≠ .symlink t)
    (budget : Nat) : followLinks fs budget n = some (n, node, budget) := by
  cases budget with
  | zero =>
    cases node with
    | file => simp [followLinks, hl]
    | dir es => simp [followLinks, hl]
    | symlink t => exact absurd rfl (hnl t)
  | succ bb =>
    cases node with
    | file => simp [followLinks, hl]
    | dir es => simp [followLinks, hl]
    | symlink t => exact absurd rfl (hnl t)

/-- A successful path resolution lands on a stored node, within budget. -/
theorem resolveFrom_spec (fs : FileSystem) :
    ∀ rel budget n id node b,
      resolveFrom fs budget n rel = some (id, node, b) →
      fs.lookup id = some node ∧ b ≤ budget := by
  intro rel
  induction rel with
  | nil =>
    intro budget n id node b h
    simp only [resolveFrom] at h
    exact followLinks_spec fs budget n id node b h
  | cons c rest ih =>
    intro budget n id node b h
    simp only [resolveFrom] at h
    split at h
    · rename_i fst entries b0 heq
      split at h
      · rename_i e hfind
        have h1 := ih b0 e.2 id node b h
        have h2 := (followLinks_spec fs budget n fst (.dir entries) b0 heq).2
        exact ⟨h1.1, Nat.le_trans h1.2 h2⟩
      · cases h
    · cases h

/-- Inversion of a successful path resolution at its last component: the
prefix resolves to a directory, the component names one of its entries, and
the entry's links are chased with the remaining budget. -/
theorem resolveFrom_snoc_inv (fs : FileSystem) :
    ∀ rel budget n c tr, resolveFrom fs budget n (rel ++ [c]) = some tr →
      ∃ i entries b e, resolveFrom fs budget n rel = some (i, .dir entries, b) ∧
        entries.find? (fun x => x.1 == c) = some e ∧
        followLinks fs b e.2 = some tr := by
  intro rel
  induction rel with
  | nil =>
    intro budget n c tr h
    simp only [List.nil_append, resolveFrom] at h ⊢
    split at h
    · rename_i fst entries b heq
      split at h
      · rename_i e hfind
        refine ⟨fst, entries, b, e, heq, hfind, ?_⟩
        simpa [resolveFrom] using h
      · cases h
    · cases h
  | cons d rest ih =>
    intro budget n c tr h
    simp only [List.cons_append, resolveFrom] at h ⊢
    split at h
    · rename_i fst entries b heq
      split at h
      · rename_i e hfind
        obtain ⟨i2, es2, b2, e2, hres, hfind2, hfl⟩ := ih b e.2 c tr h
        refine ⟨i2, es2, b2, e2, ?_, hfind2, hfl⟩
        simp [heq, hfind, hres]
      · cases h
    · cases h

/-- The well-founded measure of a path lookup: remaining symlink budget first,
resolved node id second (0 for an unresolvable path). -/
def resolveMeasure (fs : FileSystem) (rootId : Nat) (rel : List Str) : Nat :=
  match resolveFrom fs statFuel rootId rel with
  | some (id, _, b) => b * (fs.maxId + 1) + id
  | none => 0

/-- Appending a component to a resolvable path strictly shrinks the measure:
descending into a plain subdirectory lowers the node id (tree ordering), and
crossing a symbolic link spends budget. -/
theorem resolveMeasure_snoc_lt (fs : FileSystem) (rootId : Nat)
    (hto : fs.treeOrdered) (rel : List Str) (c : Str)
    (tr : Nat × FSNode × Nat)
    (h : resolveFrom fs statFuel rootId (rel ++ [c]) = some tr) :
    resolveMeasure fs rootId (rel ++ [c]) < resolveMeasure fs rootId rel := by
  obtain ⟨id2, node2, b2⟩ := tr
  obtain ⟨id, entries, b, e, hr, hfind, hfl⟩ :=
    resolveFrom_snoc_inv fs rel statFuel rootId c _ h
  have hm1 : resolveMeasure fs rootId (rel ++ [c])
      = b2 * (fs.maxId + 1) + id2 := by
    simp [resolveMeasure, h]
  have hm2 : resolveMeasure fs rootId rel = b * (fs.maxId + 1) + id := by
    simp [resolveMeasure, hr]
  rw [hm1, hm2]
  have hlook := (resolveFrom_spec fs rel statFuel rootId id (.dir entries) b hr).1
  have hclt : e.2 < id := by
    refine hto _ (lookup_mem fs id _ hlook) e.2 ?_
    simp only [FSNode.childIds]
    exact List.mem_map.mpr ⟨e, List.mem_of_find?_eq_some hfind, rfl⟩
  cases hce : fs.lookup e.2 with
  | none =>
    cases b with
    | zero => simp [followLinks, hce] at hfl
    | succ bb => simp [followLinks, hce] at hfl
  | some cnd =>
    cases cnd with
    | symlink t2 =>
      have hb2 : b2 < b := followLinks_symlink_lt fs hce hfl
      have hid2 : id2 ≤ fs.maxId :=
        lookup_le_maxId fs (followLinks_spec fs b e.2 id2 node2 b2 hfl).1
      have hstep : b2 * (fs.maxId + 1) + (fs.maxId + 1)
          ≤ b * (fs.maxId + 1) := by
        have h3 : (b2 + 1) * (fs.maxId + 1) ≤ b * (fs.maxId + 1) :=
          Nat.mul_le_mul_right _ (by omega)
        calc b2 * (fs.maxId + 1) + (fs.maxId + 1)
            = (b2 + 1) * (fs.maxId + 1) := (Nat.succ_mul _ _).symm
          _ ≤ b * (fs.maxId + 1) := h3
      calc b2 * (fs.maxId + 1) + id2
          < b2 * (fs.maxId + 1) + (fs.maxId + 1) := by omega
        _ ≤ b * (fs.maxId + 1) := hstep
        _ ≤ b * (fs.maxId + 1) + id := Nat.le_add_right _ _
    | file =>
      rw [followLinks_not_link fs hce (fun t hcontra => by cases hcontra) b] at hfl
      cases hfl
      exact Nat.add_lt_add_left hclt _
    | dir es2 =>
      rw [followLinks_not_link fs hce (fun t hcontra => by cases hcontra) b] at hfl
      cases hfl
      exact Nat.add_lt_add_left hclt _

/-- The entry loop never exhausts the recursion bound when the per-entry
recursion does not. -/
theorem crawlEntries_ne_diverged (fs : FileSystem) (rootId : Nat)
    (recurse : List Str → Str → CrawlResult) (rel : List Str)
    (entries : List (Str × Nat)) (path : Str)
    (hrec : ∀ name p es2, fs.statPath rootId (rel ++ [name]) = some (.dir es2) →
      recurse (rel ++ [name]) p ≠ .diverged) :
    crawlEntries fs rootId recurse rel entries path ≠ .diverged := by
  induction entries with
  | nil => simp [crawlEntries]
  | cons e rest ihr =>
    obtain ⟨name, child⟩ := e
    simp only [crawlEntries]
    cases hstat : fs.statPath rootId (rel ++ [name]) with
    | none => simp
    | some nd =>
      cases nd with
      | symlink t => simp
      | file =>
        cases hrr : crawlEntries fs rootId recurse rel rest path with
        | files more => simp [CrawlResult.seq, hrr]
        | error => simp [CrawlResult.seq, hrr]
        | diverged => exact absurd hrr ihr
      | dir es2 =>
        cases hcd : recurse (rel ++ [name]) (path ++ '/' :: name) with
        | diverged => exact absurd hcd (hrec name _ es2 hstat)
        | error => simp [CrawlResult.seq, hcd]
        | files sub =>
          cases hrr : crawlEntries fs rootId recurse rel rest path with
          | files more => simp [CrawlResult.seq, hcd, hrr]
          | error => simp [CrawlResult.seq, hcd, hrr]
          | diverged => exact absurd hrr ihr

/-- On a tree-ordered filesystem — symbolic links unconstrained, cycles
included — a recursion bound above the root lookup's measure is never
exhausted: the crawl returns, because the lookup measure strictly shrinks
with every descent. -/
theorem crawlDirectory_ne_diverged (fs : FileSystem) (rootId : Nat)
    (hto : fs.treeOrdered) :
    ∀ fuel rel dirPath, resolveMeasure fs rootId rel < fuel →
      crawlDirectory fs rootId fuel rel dirPath ≠ .diverged := by
  intro fuel
  induction fuel using Nat.strong_induction_on with
  | _ fuel ih =>
    intro rel dirPath hm
    obtain ⟨f, rfl⟩ : ∃ f, fuel = f + 1 := ⟨fuel - 1, by omega⟩
    show crawlDirectory fs rootId (f + 1) rel dirPath ≠ .diverged
    simp only [crawlDirectory]
    cases hst : fs.statPath rootId rel with
    | none => simp
    | some node =>
      cases node with
      | file => simp
      | symlink t => simp
      | dir entries =>
        apply crawlEntries_ne_diverged
        intro name p es2 hst2
        obtain ⟨tr, htr⟩ :
            ∃ tr, resolveFrom fs statFuel rootId (rel ++ [name]) = some tr := by
          unfold FileSystem.statPath at hst2
          cases hr : resolveFrom fs statFuel rootId (rel ++ [name]) with
          | none => rw [hr] at hst2; cases hst2
          | some tr => exact ⟨tr, rfl⟩
        have hlt := resolveMeasure_snoc_lt fs rootId hto rel name tr htr
        exact ih f (Nat.lt_succ_self f) (rel ++ [name]) p (by omega)

/-- C5 amended: on every tree-ordered filesystem — symbolic links and symlink
cycles included — the crawl terminates, returning its file list or a thrown
filesystem error.  Termination is not by skipping symlinked directories (they
ARE descended into; see the counterexample): each descent either lowers the
resolved node id or spends the path lookup's bounded symlink budget, which
runs out (`ELOOP`) on a cycle. -/
theorem crawlDirectory_terminates (fs : FileSystem) (rootId : Nat)
    (rootPath : Str) (hto : fs.treeOrdered) :
    crawlTerminates fs rootId rootPath :=
  ⟨resolveMeasure fs rootId [] + 1,
    crawlDirectory_ne_diverged fs rootId hto (resolveMeasure fs rootId [] + 1)
      [] rootPath (Nat.lt_succ_self _)⟩

/-- A directory /site containing a regular file a.txt and a symbolic link
/site/link -> /site: a symlink cycle. -/
def cyclicFS : FileSystem :=
  ⟨[(2, .dir [(str "a.txt", 0), (str "link", 1)]), (1, .symlink 2), (0, .file)]⟩

/-- Witness for `crawlDirectory_terminates`, at the symlink-cycle filesystem
itself. -/
theorem crawlDirectory_terminates_witness : crawlTerminates cyclicFS 2 (str "/site") :=
  crawlDirectory_terminates cyclicFS 2 (str "/site") (by decide)

/-- On the cyclic filesystem the crawl terminates with a thrown error: it
descends /site/link, /site/link/link, ... until the path lookup's symlink
budget is exhausted and `statSync` fails with `ELOOP`. -/
theorem cyclicFS_crawl_errors :
    crawlDirectory cyclicFS 2 50 [] (str "/site") = .error := by decide

/-- A root /site { a.txt, link -> other } where `other` is a directory
containing b.txt. -/
def symlinkFS : FileSystem :=
  ⟨[(3, .dir [(str "a.txt", 0), (str "link", 2)]), (2, .symlink 4),
    (4, .dir [(str "b.txt", 1)]), (1, .file), (0, .file)]⟩

/-- C5 counterexample: "link" is a symbolic link that `statSync` reports as a
directory, and the crawl DOES descend into it as one: the crawl of /site
emits /site/link/b.txt, reachable only through the symlink, where the claim's
never-descended semantics would yield /site/a.txt alone. -/
theorem crawlDirectory_descends_symlinked_dir :
    symlinkFS.lookup 2 = some (.symlink 4) ∧
    symlinkFS.statPath 3 [str "link"] = some (.dir [(str "b.txt", 1)]) ∧
    crawlDirectory symlinkFS 3 3 [] (str "/site")
        = .files [str "/site/a.txt", str "/site/link/b.txt"] ∧
    crawlDirectory symlinkFS 3 3 [] (str "/site") ≠ .files [str "/site/a.txt"] := by
  refine ⟨by decide, by decide, by decide, by decide⟩

/-- Inversion for crawl-outcome sequencing that produced a file list. -/
theorem CrawlResult.seq_eq_files {r : CrawlResult} {f : List Str → CrawlResult}
    {res : List Str} (h : r.seq f = .files res) :
    ∃ xs, r = .files xs ∧ f xs = .files res := by
  cases r with
  | files xs => exact ⟨xs, rfl, h⟩
  | error => simp [CrawlResult.seq] at h
  | diverged => simp [CrawlResult.seq] at h

/-- Every path the entry loop hands to the callback extends the directory
path by '/' and a non-empty suffix. -/
theorem crawlEntries_shape (fs : FileSystem) (rootId : Nat)
    (recurse : List Str → Str → CrawlResult)
    (rel : List Str) (entries : List (Str × Nat)) (path : Str) (res : List Str)
    (hrec : ∀ rel2 p sub, recurse rel2 p = .files sub →
      ∀ q ∈ sub, ∃ sfx, q = p ++ '/' :: sfx)
    (h : crawlEntries fs rootId recurse rel entries path = .files res) :
    ∀ q ∈ res, ∃ sfx, q = path ++ '/' :: sfx := by
  induction entries generalizing res with
  | nil =>
    simp only [crawlEntries] at h
    cases h
    simp
  | cons e rest ihr =>
    obtain ⟨name, child⟩ := e
    simp only [crawlEntries] at h
    cases hstat : fs.statPath rootId (rel ++ [name]) <;> rw [hstat] at h
    case none => simp at h
    case some nd =>
      cases nd with
      | symlink t => simp at h
      | file =>
        obtain ⟨more, hmore, hres⟩ := CrawlResult.seq_eq_files h
        cases hres
        intro q hq
        rcases List.mem_cons.mp hq with hq | hq
        · exact ⟨name, hq⟩
        · exact ihr more hmore q hq
      | dir es2 =>
        obtain ⟨sub, hsub, hrest2⟩ := CrawlResult.seq_eq_files h
        obtain ⟨more, hmore, hres⟩ := CrawlResult.seq_eq_files hrest2
        cases hres
        intro q hq
        rcases List.mem_append.mp hq with hq | hq
        · obtain ⟨sfx, hsfx⟩ :=
            hrec (rel ++ [name]) (path ++ '/' :: name) sub hsub q hq
          exact ⟨name ++ '/' :: sfx, by simp [hsfx]⟩
        · exact ihr more hmore q hq

/-- Every path the crawl hands to the callback extends the root path by '/'
and the file's root-relative path. -/
theorem crawlDirectory_shape (fs : FileSystem) (rootId : Nat) :
    ∀ fuel rel path res, crawlDirectory fs rootId fuel rel path = .files res →
      ∀ q ∈ res, ∃ sfx, q = path ++ '/' :: sfx := by
  intro fuel
  induction fuel with
  | zero => intro rel path res h; simp [crawlDirectory] at h
  | succ fuel ih =>
    intro rel path res h
    simp only [crawlDirectory] at h
    cases hstat : fs.statPath rootId rel <;> rw [hstat] at h
    case none => simp at h
    case some node =>
      cases node with
      | file => simp at h
      | symlink t => simp at h
      | dir entries =>
        exact crawlEntries_shape fs rootId _ rel entries path res
          (fun rel2 p sub hs => ih rel2 p sub hs) h

/-- A two-file tree: a.txt and child/b.txt under node 3, in post-order
numbering. -/
def exampleFS : FileSystem :=
  ⟨[(3, .dir [(str "a.txt", 0), (str "child", 2)]), (0, .file),
    (2, .dir [(str "b.txt", 1)]), (1, .file)]⟩

/-- A list is a `List.isPrefixOf` of itself extended by anything. -/
theorem isPrefixOf_append_self (pat t : Str) : pat.isPrefixOf (pat ++ t) = true := by
  induction pat with
  | nil => simp
  | cons c cs ih => simp [List.isPrefixOf, ih]

/-- JS `replace` with the pattern as the leading prefix drops that prefix. -/
theorem replaceFirst_append_left (pat rep t : Str) :
    replaceFirst pat rep (pat ++ t) = rep ++ t := by
  cases hpt : pat ++ t with
  | nil =>
    obtain ⟨hp, ht⟩ := List.append_eq_nil.mp hpt
    subst hp
    subst ht
    simp [replaceFirst, List.isPrefixOf]
  | cons c cs =>
    simp only [replaceFirst]
    rw [if_pos (by rw [← hpt]; exact isPrefixOf_append_self pat t)]
    rw [← hpt, List.drop_left]

/-- Characterization of the records produced by `uploadStatic`: each targets
the given bucket and its key is the source path made relative to the root
(the filePath.replace(path + '/', '') of the source, which strips the
leading path + '/'). -/
theorem uploadStatic_mem (fs : FileSystem) (fuel rootId : Nat)
    (path bucket : Str) (records : List UploadRecord) (r : UploadRecord)
    (h : uploadStatic fs fuel rootId path bucket = some records)
    (hr : r ∈ records) :
    r.bucket = bucket ∧ path ++ '/' :: r.key = r.sourcePath := by
  unfold uploadStatic at h
  cases hcr : crawlDirectory fs rootId fuel [] path <;> rw [hcr] at h
  case error => cases h
  case diverged => cases h
  case files fps =>
    cases h
    obtain ⟨fp, hfp, rfl⟩ := List.mem_map.mp hr
    obtain ⟨sfx, hsfx⟩ := crawlDirectory_shape fs rootId fuel [] path fps hcr fp hfp
    refine ⟨rfl, ?_⟩
    subst hsfx
    show path ++ '/' :: replaceFirst (path ++ ['/']) [] (path ++ '/' :: sfx)
        = path ++ '/' :: sfx
    have heq : path ++ '/' :: sfx = (path ++ ['/']) ++ sfx := by simp
    rw [heq, replaceFirst_append_left]
    simp

/-- C6: every upload record declared for a file discovered under a sync root
targets the given bucket, and its remote key is the file's path relative to
the root: prepending root + '/' to the key gives back the file's full path.
Path separators are forward slashes on every host: the source always builds
paths as dir + '/' + name and strips path + '/', never using the OS separator. -/
theorem uploadStatic_keys_relative (fs : FileSystem) (fuel rootId : Nat)
    (path bucket : Str) (records : List UploadRecord)
    (h : uploadStatic fs fuel rootId path bucket = some records) :
    ∀ r ∈ records, r.bucket = bucket ∧ path ++ '/' :: r.key = r.sourcePath :=
  fun r hr => uploadStatic_mem fs fuel rootId path bucket records r h hr

/-- Witness for `uploadStatic_keys_relative`: the two-file tree yields exactly
the records with keys "a.txt" and "child/b.txt". -/
theorem uploadStatic_keys_relative_witness :
    uploadStatic exampleFS 2 3 (str "/site") (str "bkt") = some
      [⟨str "a.txt", str "bkt", str "/site/a.txt"⟩,
       ⟨str "child/b.txt", str "bkt", str "/site/child/b.txt"⟩] ∧
    ∀ r ∈ ([⟨str "a.txt", str "bkt", str "/site/a.txt"⟩,
       ⟨str "child/b.txt", str "bkt", str "/site/child/b.txt"⟩] : List UploadRecord),
      r.bucket = str "bkt" ∧ str "/site" ++ '/' :: r.key = r.sourcePath :=
  ⟨by decide,
   uploadStatic_keys_relative exampleFS 2 3 (str "/site") (str "bkt") _ (by decide)⟩

/-- C10: `buildStatic` uploads both roots into the one shared bucket, so when
the two roots each contain a file at the same root-relative key the combined
output carries two records with that identical key, all targeting the shared
bucket: remote-key uniqueness holds only within a single root. -/
theorem buildStatic_shared_bucket_duplicate_keys (fs : FileSystem)
    (fuel staticId prerenderedId : Nat) (staticPath prerenderedPath : Str)
    (rs ps : List UploadRecord) (k : Str)
    (hs : uploadStatic fs fuel staticId staticPath (str "StaticContentBucket")
        = some rs)
    (hp : uploadStatic fs fuel prerenderedId prerenderedPath
        (str "StaticContentBucket") = some ps)
    (hks : ∃ r ∈ rs, r.key = k) (hkp : ∃ r ∈ ps, r.key = k) :
    buildStatic fs fuel staticId prerenderedId staticPath prerenderedPath
        = some (str "StaticContentBucket", rs ++ ps) ∧
    2 ≤ ((rs ++ ps).filter (fun r => r.key == k)).length ∧
    ∀ r ∈ rs ++ ps, r.bucket = str "StaticContentBucket" := by
  refine ⟨?_, ?_, ?_⟩
  · simp only [buildStatic]
    rw [hs, hp]
  · rw [List.filter_append, List.length_append]
    obtain ⟨r1, h1, hk1⟩ := hks
    obtain ⟨r2, h2, hk2⟩ := hkp
    have l1 : 0 < (rs.filter (fun r => r.key == k)).length :=
      List.length_pos_of_mem (List.mem_filter.mpr ⟨h1, by simp [hk1]⟩)
    have l2 : 0 < (ps.filter (fun r => r.key == k)).length :=
      List.length_pos_of_mem (List.mem_filter.mpr ⟨h2, by simp [hk2]⟩)
    omega
  · intro r hr
    rcases List.mem_append.mp hr with h | h
    · exact (uploadStatic_mem fs fuel staticId staticPath _ rs r hs h).1
    · exact (uploadStatic_mem fs fuel prerenderedId prerenderedPath _ ps r hp h).1

/-- Two one-file trees, each containing a file named a.txt at its root. -/
def dupFS : FileSystem :=
  ⟨[(1, .dir [(str "a.txt", 0)]), (0, .file),
    (3, .dir [(str "a.txt", 2)]), (2, .file)]⟩

/-- Witness for `buildStatic_shared_bucket_duplicate_keys`: both roots of
`dupFS` contain a.txt, and the combined plan carries the key twice into the
shared bucket. -/
theorem buildStatic_shared_bucket_duplicate_keys_witness :
    buildStatic dupFS 2 1 3 (str "/static") (str "/prerendered")
        = some (str "StaticContentBucket",
          [⟨str "a.txt", str "StaticContentBucket", str "/static/a.txt"⟩,
           ⟨str "a.txt", str "StaticContentBucket", str "/prerendered/a.txt"⟩]) ∧
    2 ≤ (([⟨str "a.txt", str "StaticContentBucket", str "/static/a.txt"⟩,
           ⟨str "a.txt", str "StaticContentBucket", str "/prerendered/a.txt"⟩]
          : List UploadRecord).filter (fun r => r.key == str "a.txt")).length ∧
    ∀ r ∈ ([⟨str "a.txt", str "StaticContentBucket", str "/static/a.txt"⟩,
           ⟨str "a.txt", str "StaticContentBucket", str "/prerendered/a.txt"⟩]
          : List UploadRecord),
      r.bucket = str "StaticContentBucket" :=
  buildStatic_shared_bucket_duplicate_keys dupFS 2 1 3 (str "/static")
    (str "/prerendered")
    [⟨str "a.txt", str "StaticContentBucket", str "/static/a.txt"⟩]
    [⟨str "a.txt", str "StaticContentBucket", str "/prerendered/a.txt"⟩]
    (str "a.txt") (by decide) (by decide) (by decide) (by decide)

end SvelteKitAdapterAws
